import Mathlib

/-!
Verification of the A2A (agent-to-agent) message routing and discovery
subsystem: mention parsing, agent directory, router, remote dispatcher and
routing log, embedded shallowly from the repository's Python code
(`extract_agent_mentions`, `send_message_to_agent`, the `/a2a` endpoint,
the `KNOWN_AGENTS` registry) and, where the deciding code is not present
in the repository snapshot, modelled from the design spec.
-/

namespace A2A

/-- A character of the identifier character set: the ASCII fragment of the
Python regex class `[\w-]` (letters, digits, underscore, hyphen). -/
def isMentionChar (c : Char) : Bool :=
  c.isAlphanum || c == '_' || c == '-'

/-- Python `str.strip()` whitespace characters (ASCII fragment). -/
def isSpaceChar (c : Char) : Bool :=
  c == ' ' || c == '\t' || c == '\n' || c == '\r' || c == '\x0b' || c == '\x0c'

/-- ASCII lower-casing of one character, as Python `str.lower()` does on
ASCII input. -/
def pyLowerChar (c : Char) : Char :=
  if 'A' ≤ c ∧ c ≤ 'Z' then Char.ofNat (c.toNat + 32) else c

/-- Python `str.lower()` (ASCII fragment). -/
def pyLower (s : String) : String :=
  String.mk (s.toList.map pyLowerChar)

/-- Python `str.strip()`: drop leading and trailing whitespace. -/
def pyStrip (s : String) : String :=
  String.mk (((s.toList.dropWhile isSpaceChar).reverse.dropWhile isSpaceChar).reverse)

/-- Remove the first occurrence of `pat` from a character list (the
single-occurrence substring removal used to strip the mention token). -/
def removeFirstSub (pat : List Char) : List Char → List Char
  | [] => []
  | c :: rest =>
    if pat.isPrefixOf (c :: rest) then (c :: rest).drop pat.length
    else c :: removeFirstSub pat rest

/-- Scan embedding of Python `re.findall(r'@([\w-]+)', text)`: walk the
character list left to right; at each `@` take the maximal nonempty run of
identifier characters as one capture and resume after it, as the regex
engine does (non-overlapping matches, greedy `+`).  The `fuel` argument
makes the recursion structural; it is always called with at least the
length of the list, which suffices. -/
def extractMentionsAux : Nat → List Char → List (List Char)
  | 0, _ => []
  | _, [] => []
  | fuel + 1, c :: rest =>
    if c = '@' then
      let run := rest.takeWhile isMentionChar
      if run.isEmpty then extractMentionsAux fuel rest
      else run :: extractMentionsAux fuel (rest.drop run.length)
    else extractMentionsAux fuel rest

/-- `extract_agent_mentions(text)` from the source: extract `@agent-id`
mentions from text, in order of appearance, duplicates preserved. -/
def extract_agent_mentions (text : String) : List String :=
  (extractMentionsAux text.toList.length text.toList).map (fun l => String.mk l)

/-- Position-annotated variant of the same scan, used to state where each
mention occurs in the input; `i` is the index of the head of the current
suffix within the original list. -/
def extractMentionsPos : Nat → Nat → List Char → List (Nat × List Char)
  | 0, _, _ => []
  | _, _, [] => []
  | fuel + 1, i, c :: rest =>
    if c = '@' then
      let run := rest.takeWhile isMentionChar
      if run.isEmpty then extractMentionsPos fuel (i + 1) rest
      else (i, run) :: extractMentionsPos fuel (i + 1 + run.length) (rest.drop run.length)
    else extractMentionsPos fuel (i + 1) rest

/-- There is a mention `m` at position `p` of `l`: the character at `p` is
`@` and `m` is the maximal nonempty run of identifier characters that
follows it (no leading-whitespace requirement, so mid-word occurrences
qualify). -/
def MentionAt (l : List Char) (p : Nat) (m : List Char) : Prop :=
  (l.drop p).head? = some '@' ∧
  m = (l.drop (p + 1)).takeWhile isMentionChar ∧
  m ≠ []

/-! ### Python values and reply-text extraction -/

/-- The fragment of Python/JSON values the dispatcher handles: strings,
integers, lists and dicts (the shapes `response.json()` can produce that
the claims exercise). -/
inductive PyVal where
  | str (s : String)
  | int (n : Int)
  | list (xs : List PyVal)
  | dict (kvs : List (String × PyVal))

mutual

/-- Python `repr()` of a value (`str()` of a dict or list prints its
elements with `repr`). -/
def pyRepr : PyVal → String
  | .str s => "'" ++ s ++ "'"
  | .int n => toString n
  | .list xs => "[" ++ pyReprElems xs ++ "]"
  | .dict kvs => "\x7b" ++ pyReprPairs kvs ++ "\x7d"

/-- Comma-joined `repr`s of list elements. -/
def pyReprElems : List PyVal → String
  | [] => ""
  | [v] => pyRepr v
  | v :: rest => pyRepr v ++ ", " ++ pyReprElems rest

/-- Comma-joined `repr`s of dict entries. -/
def pyReprPairs : List (String × PyVal) → String
  | [] => ""
  | [(k, v)] => "'" ++ k ++ "': " ++ pyRepr v
  | (k, v) :: rest => "'" ++ k ++ "': " ++ pyRepr v ++ ", " ++ pyReprPairs rest

end

/-- Python `str()` of a value (a string prints itself; containers print as
`repr`). -/
def pyStr : PyVal → String
  | .str s => s
  | v => pyRepr v

/-- First-match association lookup, the semantics of Python `dict.get`
(dict keys are unique, so first match is the match). -/
def lookupKey : List (String × PyVal) → String → Option PyVal
  | [], _ => none
  | (k, v) :: rest, key => if k = key then some v else lookupKey rest key

/-- The dispatcher's reply-text extraction
`data.get("content", {}).get("text", str(data))` from the source.
`none` models a raised `AttributeError`: Python `.get` exists only on
dicts, so a non-dict `data`, or a `content` value that is present but not
a dict, raises. -/
def extract_reply_text (data : PyVal) : Option PyVal :=
  match data with
  | .dict kvs =>
    match lookupKey kvs "content" with
    | none => some (.str (pyStr data))
    | some (.dict ckvs) =>
      match lookupKey ckvs "text" with
      | some v => some v
      | none => some (.str (pyStr data))
    | some _ => none
  | _ => none

/-! ### Agent directory -/

/-- The in-memory registry `KNOWN_AGENTS`: agent identifier to endpoint
URL. -/
abbrev Directory := List (String × String)

/-- Insert-or-overwrite of one key: the semantics of a Python dict
assignment `KNOWN_AGENTS[agent_id] = agent_url`. -/
def upsert (k v : String) : Directory → Directory
  | [] => [(k, v)]
  | (k', v') :: rest => if k' = k then (k, v) :: rest else (k', v') :: upsert k v rest

/-- Modelled from the spec: the registration handler (`/agents/register`)
is not in the repository snapshot; per the spec identifiers are
case-normalized opaque tokens and registration is an upsert, so a record
is stored under the lower-cased identifier. -/
def register_agent (dir : Directory) (agent_id agent_url : String) : Directory :=
  upsert (pyLower agent_id) agent_url dir

/-- Modelled from the spec: `lookup(identifier)` is a case-insensitive
exact match, realized against the lower-case-keyed directory. -/
def lookupAgent (dir : Directory) (agent_id : String) : Option String :=
  (dir.find? (fun kv => kv.1 == pyLower agent_id)).map (fun kv => kv.2)

/-- `list(KNOWN_AGENTS.keys())`: the currently known identifiers. -/
def knownIdentifiers (dir : Directory) : List String :=
  dir.map (fun kv => kv.1)

/-- Comma-joined single-quoted identifiers, as Python prints a list of
strings. -/
def quoteJoin : List String → String
  | [] => ""
  | [s] => "'" ++ s ++ "'"
  | s :: rest => "'" ++ s ++ "', " ++ quoteJoin rest

/-- Python `str()` of a list of strings, e.g. `['maria-agent']`. -/
def pyListRepr (ids : List String) : String :=
  "[" ++ quoteJoin ids ++ "]"

/-! ### Remote dispatcher -/

/-- The hard-coded client timeout from `httpx.AsyncClient(timeout=30.0)`. -/
def httpTimeout : Nat := 30

/-- The timeout the dispatcher would use under a given deployment
configuration (environment): the source passes the literal `30.0` and
consults no configuration, so the result ignores `cfg`. -/
def send_timeout (_cfg : List (String × String)) : Nat :=
  httpTimeout

/-- One outbound HTTP POST to a peer's `/a2a` endpoint. -/
structure Request where
  agent_url : String
  message : String
  conversation_id : String
  timeout : Nat
deriving DecidableEq

/-- The network's answer to one request: a parsed JSON body, or a
timeout/connection/parse failure. -/
inductive NetResult where
  | ok (body : PyVal)
  | fail

/-- Outcome of `send_message_to_agent`. -/
inductive SendResult where
  | reply (v : PyVal)
  | notFound (text : String)
  | dispatchFail (text : String)

/-- The agent-not-found reply text, with the literal target identifier and
the current known-identifiers list (wording from the documented
`❌ Agent '…' not found. Known agents: […]` response). -/
def agentNotFoundText (dir : Directory) (agent_id : String) : String :=
  "❌ Agent '" ++ agent_id ++ "' not found. Known agents: " ++
    pyListRepr (knownIdentifiers dir)

/-- Modelled from the spec: the wording of the dispatch-failure reply is
not in the repository snapshot; per the spec a timeout, connection error
or unparsable body is folded into a reply text that communicates the
failure. -/
def dispatchFailText (agent_id : String) : String :=
  "❌ Error communicating with agent '" ++ agent_id ++ "'"

/-- `send_message_to_agent(agent_id, message, conversation_id)` from the
source, with the agent-not-found branch modelled from the spec (the
snapshot's snippet shows only the found path): look the target up in the
directory; if absent, fold the failure into a reply listing the known
identifiers and issue no network call; otherwise issue exactly one POST
with the 30-unit timeout and extract the reply text from the JSON body.
Also returns the list of outbound requests issued, for the at-most-once
property. -/
def send_message_to_agent (dir : Directory) (agent_id message conversation_id : String)
    (net : Request → NetResult) : SendResult × List Request :=
  match lookupAgent dir agent_id with
  | none => (.notFound (agentNotFoundText dir agent_id), [])
  | some agent_url =>
    let req : Request := ⟨agent_url, message, conversation_id, httpTimeout⟩
    match net req with
    | .ok data =>
      match extract_reply_text data with
      | some v => (.reply v, [req])
      | none => (.dispatchFail (dispatchFailText agent_id), [req])
    | .fail => (.dispatchFail (dispatchFailText agent_id), [req])

/-! ### Router -/

/-- Modelled from the spec: `parse_a2a_request` is called by the `/a2a`
endpoint but its body is not in the repository snapshot; per the spec it
takes the first parsed mention as the routing target and strips exactly
that mention token from the text, with leading/trailing whitespace
collapsed, to form the forwarded payload. -/
def parse_a2a_request (text : String) : Option String × String :=
  match extract_agent_mentions text with
  | [] => (none, text)
  | target :: _ =>
    (some target, pyStrip (String.mk (removeFirstSub ('@' :: target.toList) text.toList)))

/-- The Router's tagged routing decision. -/
inductive RoutingDecision where
  | localDecision (text : String)
  | forward (target : String) (strippedText : String)
deriving DecidableEq

/-- The pure decision function: no mention means local handling, otherwise
forward to the first mention with the stripped payload. -/
def route_decision (text : String) : RoutingDecision :=
  match parse_a2a_request text with
  | (none, _) => .localDecision text
  | (some target, clean) => .forward target clean

/-- Entry-point mode: strict agent-to-agent-only, or permissive
local-processing fallback (a deployment-time configuration choice). -/
inductive Mode where
  | strict
  | permissive
deriving DecidableEq

/-- Routing Log phases. -/
inductive Phase where
  | incoming
  | routing
  | processing
  | success
  | error
deriving DecidableEq

/-- One Routing Log entry (`logs/a2a_messages.log` line): phase,
correlation key, and target when applicable. -/
structure LogEntry where
  phase : Phase
  conversation_id : String
  target : Option String
deriving DecidableEq

/-- Observable router effects other than network requests: invoking the
Local Responder (`crew.kickoff()`), or deciding to forward. -/
inductive Action where
  | forwardTo (target : String) (payload : String)
  | localRespond (text : String)
deriving DecidableEq

/-- What the endpoint hands back to the HTTP layer: a normal success
envelope, or an HTTP error (`HTTPException` detail). -/
inductive A2AResponse where
  | envelope (text : String) (conversation_id : String)
  | httpError (detail : String)
deriving DecidableEq

/-- The collaborators of one `/a2a` call: the directory, the network, and
the opaque Local Responder. -/
structure Env where
  dir : Directory
  net : Request → NetResult
  localResponder : String → String

/-- Everything observable about one `/a2a` call. -/
structure A2AOutcome where
  response : A2AResponse
  actions : List Action
  requests : List Request
  log : List LogEntry
deriving DecidableEq

/-- The strict-mode rejection detail, carrying the original message text
verbatim (wording from the documented error response). -/
def strictDetail (text : String) : String :=
  "❌ ERROR: /a2a endpoint requires @agent-id for routing.\n\nYour message: '" ++
    text ++
    "'\n\nThis endpoint is ONLY for agent-to-agent communication.\nYou must include @agent-id to route to another agent.\n\nFor direct queries to THIS agent, use POST /query instead."

/-- The forwarding wrapper the router prepends to the peer's reply
(wording from the documented `[Forwarded to @…]` responses). -/
def fwdWrap (target reply : String) : String :=
  "[Forwarded to @" ++ target ++ "]\n\n" ++ reply

/-- The `/a2a` endpoint from the source, effects made explicit, with the
strict/permissive no-mention branch and the log emission modelled from the
spec and the documented responses and log lines: parse the text; with a
mention, dispatch to the first target and wrap the outcome in a success
envelope (agent-not-found and dispatch failures folded in); with no
mention, strict mode rejects with the original text and never invokes the
Local Responder, permissive mode processes locally. -/
def a2a_endpoint (mode : Mode) (env : Env) (text conversation_id : String) : A2AOutcome :=
  let incomingLog : LogEntry := ⟨.incoming, conversation_id, none⟩
  match parse_a2a_request text with
  | (some target, clean) =>
    let sent := send_message_to_agent env.dir target clean conversation_id env.net
    let routingLog : LogEntry := ⟨.routing, conversation_id, some target⟩
    match sent.1 with
    | .reply v =>
      { response := .envelope (fwdWrap target (pyStr v)) conversation_id
        actions := [.forwardTo target clean]
        requests := sent.2
        log := [incomingLog, routingLog, ⟨.success, conversation_id, some target⟩] }
    | .notFound t =>
      { response := .envelope (fwdWrap target t) conversation_id
        actions := [.forwardTo target clean]
        requests := sent.2
        log := [incomingLog, routingLog, ⟨.success, conversation_id, some target⟩] }
    | .dispatchFail t =>
      { response := .envelope (fwdWrap target t) conversation_id
        actions := [.forwardTo target clean]
        requests := sent.2
        log := [incomingLog, routingLog, ⟨.error, conversation_id, some target⟩] }
  | (none, _) =>
    match mode with
    | .strict =>
      { response := .httpError (strictDetail text)
        actions := []
        requests := []
        log := [incomingLog, ⟨.error, conversation_id, none⟩] }
    | .permissive =>
      { response := .envelope (env.localResponder text) conversation_id
        actions := [.localRespond text]
        requests := []
        log := [incomingLog, ⟨.processing, conversation_id, none⟩,
                ⟨.success, conversation_id, none⟩] }

/-! ### Mention Parser lemmas -/

theorem extractMentionsAux_nil (fuel : Nat) : extractMentionsAux fuel [] = [] := by
  cases fuel <;> simp [extractMentionsAux]

theorem extractMentionsAux_cons_other (fuel : Nat) (c : Char) (rest : List Char)
    (h : ¬c = '@') :
    extractMentionsAux (fuel + 1) (c :: rest) = extractMentionsAux fuel rest := by
  simp [extractMentionsAux, h]

theorem extractMentionsAux_cons_at_empty (fuel : Nat) (rest : List Char)
    (h : (rest.takeWhile isMentionChar).isEmpty = true) :
    extractMentionsAux (fuel + 1) ('@' :: rest) = extractMentionsAux fuel rest := by
  simp [extractMentionsAux, h]

theorem extractMentionsAux_cons_at_run (fuel : Nat) (rest : List Char)
    (h : ¬(rest.takeWhile isMentionChar).isEmpty = true) :
    extractMentionsAux (fuel + 1) ('@' :: rest) =
      rest.takeWhile isMentionChar ::
        extractMentionsAux fuel (rest.drop (rest.takeWhile isMentionChar).length) := by
  simp [extractMentionsAux, h]

theorem extractMentionsPos_nil (fuel i : Nat) : extractMentionsPos fuel i [] = [] := by
  cases fuel <;> simp [extractMentionsPos]

theorem extractMentionsPos_cons_other (fuel i : Nat) (c : Char) (rest : List Char)
    (h : ¬c = '@') :
    extractMentionsPos (fuel + 1) i (c :: rest) = extractMentionsPos fuel (i + 1) rest := by
  simp [extractMentionsPos, h]

theorem extractMentionsPos_cons_at_empty (fuel i : Nat) (rest : List Char)
    (h : (rest.takeWhile isMentionChar).isEmpty = true) :
    extractMentionsPos (fuel + 1) i ('@' :: rest) = extractMentionsPos fuel (i + 1) rest := by
  simp [extractMentionsPos, h]

theorem extractMentionsPos_cons_at_run (fuel i : Nat) (rest : List Char)
    (h : ¬(rest.takeWhile isMentionChar).isEmpty = true) :
    extractMentionsPos (fuel + 1) i ('@' :: rest) =
      (i, rest.takeWhile isMentionChar) ::
        extractMentionsPos fuel (i + 1 + (rest.takeWhile isMentionChar).length)
          (rest.drop (rest.takeWhile isMentionChar).length) := by
  simp [extractMentionsPos, h]

theorem extractMentionsAux_eq_map_pos (fuel : Nat) :
    ∀ (i : Nat) (l : List Char),
      extractMentionsAux fuel l = (extractMentionsPos fuel i l).map Prod.snd := by
  induction fuel with
  | zero => intro i l; simp [extractMentionsAux, extractMentionsPos]
  | succ fuel ih =>
    intro i l
    cases l with
    | nil => simp [extractMentionsAux_nil, extractMentionsPos_nil]
    | cons c rest =>
      by_cases hc : c = '@'
      · subst hc
        by_cases hrun : (rest.takeWhile isMentionChar).isEmpty = true
        · rw [extractMentionsAux_cons_at_empty _ _ hrun,
            extractMentionsPos_cons_at_empty _ _ _ hrun]
          exact ih _ _
        · rw [extractMentionsAux_cons_at_run _ _ hrun,
            extractMentionsPos_cons_at_run _ _ _ hrun, List.map_cons]
          exact congrArg _ (ih _ _)
      · rw [extractMentionsAux_cons_other _ _ _ hc, extractMentionsPos_cons_other _ _ _ _ hc]
        exact ih _ _

theorem extractMentionsPos_le (fuel : Nat) :
    ∀ (i : Nat) (l : List Char), ∀ pm ∈ extractMentionsPos fuel i l, i ≤ pm.1 := by
  induction fuel with
  | zero => intro i l pm h; simp [extractMentionsPos] at h
  | succ fuel ih =>
    intro i l pm h
    cases l with
    | nil => rw [extractMentionsPos_nil] at h; simp at h
    | cons c rest =>
      by_cases hc : c = '@'
      · subst hc
        by_cases hrun : (rest.takeWhile isMentionChar).isEmpty = true
        · rw [extractMentionsPos_cons_at_empty _ _ _ hrun] at h
          exact Nat.le_of_succ_le (ih _ _ _ h)
        · rw [extractMentionsPos_cons_at_run _ _ _ hrun, List.mem_cons] at h
          rcases h with rfl | h
          · exact Nat.le_refl i
          · have := ih _ _ _ h; omega
      · rw [extractMentionsPos_cons_other _ _ _ _ hc] at h
        exact Nat.le_of_succ_le (ih _ _ _ h)

theorem extractMentionsPos_pairwise (fuel : Nat) :
    ∀ (i : Nat) (l : List Char),
      (extractMentionsPos fuel i l).Pairwise (fun a b => a.1 < b.1) := by
  induction fuel with
  | zero => intro i l; simp [extractMentionsPos]
  | succ fuel ih =>
    intro i l
    cases l with
    | nil => rw [extractMentionsPos_nil]; exact List.Pairwise.nil
    | cons c rest =>
      by_cases hc : c = '@'
      · subst hc
        by_cases hrun : (rest.takeWhile isMentionChar).isEmpty = true
        · rw [extractMentionsPos_cons_at_empty _ _ _ hrun]; exact ih _ _
        · rw [extractMentionsPos_cons_at_run _ _ _ hrun]
          refine List.Pairwise.cons ?_ (ih _ _)
          intro pm hpm
          have := extractMentionsPos_le fuel _ _ pm hpm
          omega
      · rw [extractMentionsPos_cons_other _ _ _ _ hc]; exact ih _ _

theorem mentionAt_drop (l : List Char) (d k : Nat) (m : List Char) :
    MentionAt (l.drop d) k m ↔ MentionAt l (d + k) m := by
  have h1 : (l.drop d).drop k = l.drop (d + k) := by
    rw [List.drop_drop]
  have h2 : (l.drop d).drop (k + 1) = l.drop (d + k + 1) := by
    rw [List.drop_drop]
    congr 1
  unfold MentionAt
  rw [h1, h2]

theorem mentionAt_cons (c : Char) (rest : List Char) (k : Nat) (m : List Char) :
    MentionAt rest k m ↔ MentionAt (c :: rest) (k + 1) m := by
  have h := mentionAt_drop (c :: rest) 1 k m
  rw [Nat.add_comm 1 k] at h
  simpa using h

theorem head_drop_takeWhile (q : Char → Bool) :
    ∀ (l : List Char) (k : Nat), k < (l.takeWhile q).length →
      ∀ c, (l.drop k).head? = some c → q c = true := by
  intro l
  induction l with
  | nil => intro k h; simp at h
  | cons x xs ih =>
    intro k h c hc
    by_cases hq : q x
    · cases k with
      | zero =>
        simp at hc
        subst hc
        exact hq
      | succ k =>
        rw [List.takeWhile_cons, if_pos hq] at h
        simp only [List.length_cons, Nat.succ_lt_succ_iff] at h
        rw [List.drop_succ_cons] at hc
        exact ih k h c hc
    · rw [List.takeWhile_cons, if_neg hq] at h
      simp at h

theorem extractMentionsPos_sound (fuel : Nat) :
    ∀ (i : Nat) (l : List Char), ∀ pm ∈ extractMentionsPos fuel i l,
      MentionAt l (pm.1 - i) pm.2 := by
  induction fuel with
  | zero => intro i l pm h; simp [extractMentionsPos] at h
  | succ fuel ih =>
    intro i l pm h
    cases l with
    | nil => rw [extractMentionsPos_nil] at h; simp at h
    | cons c rest =>
      by_cases hc : c = '@'
      · subst hc
        by_cases hrun : (rest.takeWhile isMentionChar).isEmpty = true
        · rw [extractMentionsPos_cons_at_empty _ _ _ hrun] at h
          have hle := extractMentionsPos_le fuel _ _ pm h
          have hma := ih _ _ pm h
          have hk : pm.1 - i = (pm.1 - (i + 1)) + 1 := by omega
          rw [hk]
          exact (mentionAt_cons _ _ _ _).mp hma
        · rw [extractMentionsPos_cons_at_run _ _ _ hrun, List.mem_cons] at h
          rcases h with rfl | h
          · have h0 : (i, rest.takeWhile isMentionChar).1 - i = 0 := Nat.sub_self i
            unfold MentionAt
            rw [h0]
            refine ⟨rfl, by simp, ?_⟩
            intro hempty
            have hempty' : rest.takeWhile isMentionChar = [] := hempty
            rw [hempty'] at hrun
            simp at hrun
          · have hle := extractMentionsPos_le fuel _ _ pm h
            have hma := ih _ _ pm h
            set rl := (rest.takeWhile isMentionChar).length with hrl
            have hd : MentionAt (rest.drop rl) (pm.1 - (i + 1 + rl)) pm.2 := hma
            have := (mentionAt_drop rest rl (pm.1 - (i + 1 + rl)) pm.2).mp hd
            have hshift := (mentionAt_cons '@' rest (rl + (pm.1 - (i + 1 + rl))) pm.2).mp this
            have hk : pm.1 - i = rl + (pm.1 - (i + 1 + rl)) + 1 := by omega
            rw [hk]
            exact hshift
      · rw [extractMentionsPos_cons_other _ _ _ _ hc] at h
        have hle := extractMentionsPos_le fuel _ _ pm h
        have hma := ih _ _ pm h
        have hk : pm.1 - i = (pm.1 - (i + 1)) + 1 := by omega
        rw [hk]
        exact (mentionAt_cons _ _ _ _).mp hma

theorem extractMentionsPos_complete (fuel : Nat) :
    ∀ (i : Nat) (l : List Char) (p : Nat) (m : List Char),
      l.length ≤ fuel → MentionAt l p m → (i + p, m) ∈ extractMentionsPos fuel i l := by
  induction fuel with
  | zero =>
    intro i l p m hlen hma
    interval_cases hl : l.length
    · rw [List.length_eq_zero] at hl
      subst hl
      rcases hma with ⟨hhd, -, -⟩
      simp at hhd
  | succ fuel ih =>
    intro i l p m hlen hma
    cases l with
    | nil =>
      rcases hma with ⟨hhd, -, -⟩
      simp at hhd
    | cons c rest =>
      cases p with
      | zero =>
        rcases hma with ⟨hhd, hm, hne⟩
        simp at hhd
        subst hhd
        simp only [List.drop_succ_cons, List.drop_zero] at hm
        have hrun : ¬(rest.takeWhile isMentionChar).isEmpty = true := by
          rw [List.isEmpty_iff]
          rw [hm] at hne
          exact hne
        rw [extractMentionsPos_cons_at_run _ _ _ hrun]
        rw [Nat.add_zero]
        subst hm
        exact List.mem_cons_self _ _
      | succ p =>
        have hma' : MentionAt rest p m := by
          have := (mentionAt_cons c rest p m).symm.mp
          exact this hma
        have hlen' : rest.length ≤ fuel := by
          simp only [List.length_cons] at hlen
          omega
        by_cases hc : c = '@'
        · subst hc
          by_cases hrun : (rest.takeWhile isMentionChar).isEmpty = true
          · rw [extractMentionsPos_cons_at_empty _ _ _ hrun]
            have := ih (i + 1) rest p m hlen' hma'
            have hk : i + (p + 1) = (i + 1) + p := by omega
            rw [hk]
            exact this
          · rw [extractMentionsPos_cons_at_run _ _ _ hrun]
            set rl := (rest.takeWhile isMentionChar).length with hrl
            have hplarge : rl ≤ p := by
              by_contra hlt
              push_neg at hlt
              rcases hma' with ⟨hhd, -, -⟩
              have := head_drop_takeWhile isMentionChar rest p hlt '@' hhd
              simp [isMentionChar] at this
            have hdma : MentionAt (rest.drop rl) (p - rl) m := by
              rw [mentionAt_drop]
              have hk : rl + (p - rl) = p := by omega
              rw [hk]
              exact hma'
            have hlen2 : (rest.drop rl).length ≤ fuel := by
              simp only [List.length_drop]
              omega
            have hmem := ih (i + 1 + rl) (rest.drop rl) (p - rl) m hlen2 hdma
            have hk : i + (p + 1) = (i + 1 + rl) + (p - rl) := by omega
            rw [hk]
            exact List.mem_cons_of_mem _ hmem
        · rw [extractMentionsPos_cons_other _ _ _ _ hc]
          have := ih (i + 1) rest p m hlen' hma'
          have hk : i + (p + 1) = (i + 1) + p := by omega
          rw [hk]
          exact this

/-- C2: for every text input, the Mention Parser returns the mentions in
left-to-right order of first appearance (duplicates preserved, as the
position-annotated scan with strictly increasing positions), every
returned identifier is a nonempty string of characters from the allowed
set (letters, digits, hyphen, underscore), and a mention is exactly an `@`
immediately followed by one or more such characters, recognized at any
position — mid-word included, with no required leading whitespace
(soundness and completeness of the scan against `MentionAt`). -/
theorem claim_C2_mention_lexer (text : String) :
    extract_agent_mentions text =
      (extractMentionsPos text.toList.length 0 text.toList).map (fun pm => String.mk pm.2) ∧
    (extractMentionsPos text.toList.length 0 text.toList).Pairwise (fun a b => a.1 < b.1) ∧
    (∀ pm ∈ extractMentionsPos text.toList.length 0 text.toList,
      MentionAt text.toList pm.1 pm.2) ∧
    (∀ p m, MentionAt text.toList p m →
      (p, m) ∈ extractMentionsPos text.toList.length 0 text.toList) ∧
    (∀ s ∈ extract_agent_mentions text,
      s.toList ≠ [] ∧ ∀ c ∈ s.toList, isMentionChar c = true) := by
  refine ⟨?_, extractMentionsPos_pairwise _ _ _, ?_, ?_, ?_⟩
  · unfold extract_agent_mentions
    rw [extractMentionsAux_eq_map_pos _ 0, List.map_map]
    rfl
  · intro pm h
    have := extractMentionsPos_sound _ 0 _ pm h
    simpa using this
  · intro p m hma
    exact (by simpa using extractMentionsPos_complete _ 0 _ p m (Nat.le_refl _) hma)
  · intro s hs
    unfold extract_agent_mentions at hs
    rw [extractMentionsAux_eq_map_pos _ 0, List.map_map, List.mem_map] at hs
    obtain ⟨pm, hpm, rfl⟩ := hs
    obtain ⟨-, hm, hne⟩ := extractMentionsPos_sound _ 0 _ pm hpm
    refine ⟨hne, ?_⟩
    intro c hc
    have hc' : c ∈ pm.2 := hc
    rw [hm] at hc'
    exact List.mem_takeWhile_imp hc'

/-- Witness for C2: in `"ab@c-d_1 x"` the mid-word mention at position 2
with identifier `c-d_1` is found by the scan. -/
theorem claim_C2_mention_lexer_witness :
    (2, ['c', '-', 'd', '_', '1']) ∈
      extractMentionsPos "ab@c-d_1 x".toList.length 0 "ab@c-d_1 x".toList :=
  (claim_C2_mention_lexer "ab@c-d_1 x").2.2.2.1 2 ['c', '-', 'd', '_', '1']
    ⟨rfl, rfl, by decide⟩

/-! ### Agent Directory lemmas -/

theorem upsert_find_self (k v : String) :
    ∀ d : Directory, (upsert k v d).find? (fun kv => kv.1 == k) = some (k, v) := by
  intro d
  induction d with
  | nil => simp [upsert, List.find?]
  | cons hd tl ih =>
    obtain ⟨k', v'⟩ := hd
    by_cases h : k' = k
    · subst h
      simp [upsert, List.find?]
    · rw [upsert, if_neg h, List.find?_cons_of_neg]
      · exact ih
      · simp [h]

theorem mem_keys_upsert (k v x : String) :
    ∀ d : Directory, x ∈ knownIdentifiers (upsert k v d) →
      x = k ∨ x ∈ knownIdentifiers d := by
  intro d
  induction d with
  | nil => simp [upsert, knownIdentifiers]
  | cons hd tl ih =>
    obtain ⟨k', v'⟩ := hd
    by_cases h : k' = k
    · subst h
      simp [upsert, knownIdentifiers]
      try tauto
    · rw [upsert, if_neg h]
      intro hx
      simp only [knownIdentifiers, List.map_cons, List.mem_cons] at hx ⊢
      rcases hx with hx | hx
      · tauto
      · rcases ih hx with hx' | hx' <;> tauto

theorem keys_upsert_nodup (k v : String) :
    ∀ d : Directory, (knownIdentifiers d).Nodup →
      (knownIdentifiers (upsert k v d)).Nodup := by
  intro d
  induction d with
  | nil => intro; simp [upsert, knownIdentifiers]
  | cons hd tl ih =>
    obtain ⟨k', v'⟩ := hd
    intro hnd
    simp only [knownIdentifiers, List.map_cons, List.nodup_cons] at hnd
    by_cases h : k' = k
    · rw [upsert, if_pos h]
      simp only [knownIdentifiers, List.map_cons, List.nodup_cons]
      rw [← h]
      exact hnd
    · rw [upsert, if_neg h]
      simp only [knownIdentifiers, List.map_cons, List.nodup_cons]
      refine ⟨?_, ih hnd.2⟩
      intro hmem
      rcases mem_keys_upsert k v k' tl hmem with rfl | hmem'
      · exact h rfl
      · exact hnd.1 hmem'

theorem upsert_length_of_mem (k v : String) :
    ∀ d : Directory, k ∈ knownIdentifiers d → (upsert k v d).length = d.length := by
  intro d
  induction d with
  | nil => simp [knownIdentifiers]
  | cons hd tl ih =>
    obtain ⟨k', v'⟩ := hd
    intro hmem
    by_cases h : k' = k
    · subst h
      simp [upsert]
    · rw [upsert, if_neg h]
      simp only [List.length_cons]
      simp only [knownIdentifiers, List.map_cons, List.mem_cons] at hmem
      rcases hmem with rfl | hmem
      · exact absurd rfl h
      · exact congrArg (· + 1) (ih hmem)

theorem mem_keys_upsert_self (k v : String) :
    ∀ d : Directory, k ∈ knownIdentifiers (upsert k v d) := by
  intro d
  induction d with
  | nil => simp [upsert, knownIdentifiers]
  | cons hd tl ih =>
    obtain ⟨k', v'⟩ := hd
    by_cases h : k' = k
    · subst h
      simp [upsert, knownIdentifiers]
    · rw [upsert, if_neg h]
      simp only [knownIdentifiers, List.map_cons, List.mem_cons]
      exact Or.inr ih

/-- C6: registering an identifier and then looking it up in any letter
case returns exactly the record written; re-registering the same
identifier overwrites the record and leaves the directory size unchanged;
and registration preserves the at-most-one-record-per-identifier
invariant (no duplicate keys). -/
theorem claim_C6_directory_upsert (d : Directory) (id q url url2 : String)
    (hq : pyLower q = pyLower id) (hnd : (knownIdentifiers d).Nodup) :
    lookupAgent (register_agent d id url) q = some url ∧
    lookupAgent (register_agent (register_agent d id url) id url2) q = some url2 ∧
    (register_agent (register_agent d id url) id url2).length =
      (register_agent d id url).length ∧
    (knownIdentifiers (register_agent d id url)).Nodup := by
  refine ⟨?_, ?_, ?_, ?_⟩
  · unfold lookupAgent register_agent
    rw [hq, upsert_find_self]
    rfl
  · unfold lookupAgent register_agent
    rw [hq, upsert_find_self]
    rfl
  · unfold register_agent
    exact upsert_length_of_mem _ _ _ (mem_keys_upsert_self _ _ _)
  · exact keys_upsert_nodup _ _ _ hnd

/-- Witness for C6: registering `Alpha` in the empty directory and looking
up `ALPHA` returns the written URL; re-registration overwrites it at
unchanged size. -/
theorem claim_C6_directory_upsert_witness :
    lookupAgent (register_agent [] "Alpha" "http://a.example/a2a") "ALPHA" =
      some "http://a.example/a2a" ∧
    lookupAgent (register_agent (register_agent [] "Alpha" "http://a.example/a2a")
        "Alpha" "http://b.example/a2a") "ALPHA" = some "http://b.example/a2a" ∧
    (register_agent (register_agent [] "Alpha" "http://a.example/a2a")
        "Alpha" "http://b.example/a2a").length =
      (register_agent [] "Alpha" "http://a.example/a2a").length ∧
    (knownIdentifiers (register_agent [] "Alpha" "http://a.example/a2a")).Nodup :=
  claim_C6_directory_upsert [] "Alpha" "ALPHA" "http://a.example/a2a"
    "http://b.example/a2a" (by decide) (by decide)

/-! ### Remote Dispatcher claims -/

/-- C10 (counterexample): the reply body `{"content": "hi"}` parses as
JSON and lacks a `content.text` field, yet the extraction
`data.get("content", {}).get("text", str(data))` raises (modelled `none`):
`"hi"` is a string, and `.get` on a non-dict raises `AttributeError`.  So
extraction is not raise-free over all JSON bodies and does not return
`str(body)` for every body lacking `content.text`. -/
theorem claim_C10_reply_extraction_counterexample :
    extract_reply_text (PyVal.dict [("content", PyVal.str "hi")]) = none := rfl

/-- C10 (amended): for every peer reply whose body is a JSON object in
which `content` is absent, or present as an object lacking a `text`
member, the dispatcher returns the string form of the entire reply body —
and, on those bodies, extraction never raises (it returns `some`). -/
theorem claim_C10_reply_fallback_str (kvs : List (String × PyVal))
    (h : lookupKey kvs "content" = none ∨
      ∃ ckvs, lookupKey kvs "content" = some (.dict ckvs) ∧ lookupKey ckvs "text" = none) :
    extract_reply_text (.dict kvs) = some (.str (pyStr (.dict kvs))) := by
  rcases h with h | ⟨ckvs, h, htext⟩
  · simp [extract_reply_text, h]
  · simp [extract_reply_text, h, htext]

/-- Witness for C10 (amended): the body `{"content": {"type": "text"}}`
has a `content` object with no `text` member; extraction returns the
Python string form of the whole body. -/
theorem claim_C10_reply_fallback_str_witness :
    extract_reply_text (PyVal.dict [("content", PyVal.dict [("type", PyVal.str "text")])]) =
      some (PyVal.str (pyStr (PyVal.dict [("content", PyVal.dict [("type", PyVal.str "text")])]))) :=
  claim_C10_reply_fallback_str [("content", PyVal.dict [("type", PyVal.str "text")])]
    (Or.inr ⟨[("type", PyVal.str "text")], rfl, rfl⟩)

/-- C7 (counterexample to configurability): the dispatcher's timeout is
the literal `30.0` passed to the HTTP client; it consults no
configuration, so no configuration value changes it — the timeout is not
configurable. -/
theorem claim_C7_timeout_not_configurable :
    ¬∃ cfg, send_timeout cfg ≠ send_timeout [] :=
  fun ⟨_, h⟩ => h rfl

/-- C7 (amended): for every forward, the Remote Dispatcher issues at most
one outbound request — it never retries, whatever the network outcome —
and every issued request carries the 30-unit timeout, which is hard-coded
(the same under every configuration). -/
theorem claim_C7_at_most_once (dir : Directory) (agent_id message conversation_id : String)
    (net : Request → NetResult) :
    (send_message_to_agent dir agent_id message conversation_id net).2.length ≤ 1 ∧
    ((send_message_to_agent dir agent_id message conversation_id net).2.all
      (fun r => r.timeout == 30)) = true ∧
    (∀ cfg, send_timeout cfg = 30) := by
  have hreq : (send_message_to_agent dir agent_id message conversation_id net).2 = [] ∨
      ∃ url, (send_message_to_agent dir agent_id message conversation_id net).2 =
        [⟨url, message, conversation_id, httpTimeout⟩] := by
    cases hlk : lookupAgent dir agent_id with
    | none =>
      left
      simp [send_message_to_agent, hlk]
    | some url =>
      right
      refine ⟨url, ?_⟩
      cases hnet : net ⟨url, message, conversation_id, httpTimeout⟩ with
      | ok data =>
        cases hert : extract_reply_text data with
        | none => simp [send_message_to_agent, hlk, hnet, hert]
        | some v => simp [send_message_to_agent, hlk, hnet, hert]
      | fail => simp [send_message_to_agent, hlk, hnet]
  rcases hreq with h | ⟨url, h⟩ <;> rw [h] <;>
    exact ⟨by simp, by simp [httpTimeout], fun _ => rfl⟩

/-! ### Router helpers -/

/-- The reply text carried by a dispatch outcome. -/
def sendText : SendResult → String
  | .reply v => pyStr v
  | .notFound s => s
  | .dispatchFail s => s

/-- The Routing Log phase recorded for a dispatch outcome. -/
def outcomePhase : SendResult → Phase
  | .reply _ => .success
  | .notFound _ => .success
  | .dispatchFail _ => .error

theorem parse_with_mention (text t : String) (ts : List String)
    (h : extract_agent_mentions text = t :: ts) :
    parse_a2a_request text =
      (some t, pyStrip (String.mk (removeFirstSub ('@' :: t.toList) text.toList))) := by
  unfold parse_a2a_request
  rw [h]

theorem parse_no_mention (text : String) (h : extract_agent_mentions text = []) :
    parse_a2a_request text = (none, text) := by
  unfold parse_a2a_request
  rw [h]

theorem send_not_found (dir : Directory) (agent_id message conversation_id : String)
    (net : Request → NetResult) (h : lookupAgent dir agent_id = none) :
    send_message_to_agent dir agent_id message conversation_id net =
      (.notFound (agentNotFoundText dir agent_id), []) := by
  simp [send_message_to_agent, h]

theorem send_requests_url (dir : Directory) (agent_id message conversation_id : String)
    (net : Request → NetResult) :
    ((send_message_to_agent dir agent_id message conversation_id net).2.all
      (fun r => lookupAgent dir agent_id == some r.agent_url)) = true := by
  cases hlk : lookupAgent dir agent_id with
  | none => simp [send_message_to_agent, hlk]
  | some url =>
    cases hnet : net ⟨url, message, conversation_id, httpTimeout⟩ with
    | ok data =>
      cases hert : extract_reply_text data with
      | none => simp [send_message_to_agent, hlk, hnet, hert]
      | some v => simp [send_message_to_agent, hlk, hnet, hert]
    | fail => simp [send_message_to_agent, hlk, hnet]

/-- Structure of every forward-branch outcome of the `/a2a` endpoint: one
forward decision for the first mention, the dispatcher's requests, the
wrapped reply envelope, and the three correlated log entries. -/
theorem a2a_endpoint_forward (mode : Mode) (env : Env) (text conversation_id t : String)
    (ts : List String) (h : extract_agent_mentions text = t :: ts) :
    (a2a_endpoint mode env text conversation_id).actions =
      [.forwardTo t (pyStrip (String.mk (removeFirstSub ('@' :: t.toList) text.toList)))] ∧
    (a2a_endpoint mode env text conversation_id).requests =
      (send_message_to_agent env.dir t
        (pyStrip (String.mk (removeFirstSub ('@' :: t.toList) text.toList)))
        conversation_id env.net).2 ∧
    (a2a_endpoint mode env text conversation_id).response =
      .envelope (fwdWrap t (sendText (send_message_to_agent env.dir t
        (pyStrip (String.mk (removeFirstSub ('@' :: t.toList) text.toList)))
        conversation_id env.net).1)) conversation_id ∧
    (a2a_endpoint mode env text conversation_id).log =
      [⟨.incoming, conversation_id, none⟩, ⟨.routing, conversation_id, some t⟩,
       ⟨outcomePhase (send_message_to_agent env.dir t
          (pyStrip (String.mk (removeFirstSub ('@' :: t.toList) text.toList)))
          conversation_id env.net).1, conversation_id, some t⟩] := by
  have hparse := parse_with_mention text t ts h
  cases hs : (send_message_to_agent env.dir t
      (pyStrip (String.mk (removeFirstSub ('@' :: t.toList) text.toList)))
      conversation_id env.net).1 with
  | reply v =>
    simp only [a2a_endpoint, hparse, hs]
    refine ⟨?_, ?_, ?_, ?_⟩ <;> trivial
  | notFound s =>
    simp only [a2a_endpoint, hparse, hs]
    refine ⟨?_, ?_, ?_, ?_⟩ <;> trivial
  | dispatchFail s =>
    simp only [a2a_endpoint, hparse, hs]
    refine ⟨?_, ?_, ?_, ?_⟩ <;> trivial

theorem fwdWrap_contains_target (t s : String) :
    ∃ p q, fwdWrap t s = p ++ t ++ q := by
  refine ⟨"[Forwarded to @", "]\n\n" ++ s, ?_⟩
  unfold fwdWrap
  exact String.append_assoc _ _ _

theorem notFound_reply_has_known_list (dir : Directory) (t : String) :
    ∃ p, fwdWrap t (agentNotFoundText dir t) =
      p ++ pyListRepr (knownIdentifiers dir) := by
  refine ⟨("[Forwarded to @" ++ t ++ "]\n\n") ++
    ("❌ Agent '" ++ t ++ "' not found. Known agents: "), ?_⟩
  unfold fwdWrap agentNotFoundText
  exact (String.append_assoc _ _ _).symm

/-- A directory, network and local responder used by the concrete witness
scenarios: `alpha` is registered and its peer replies `"hi"`. -/
def demoDir : Directory := [("alpha", "http://alpha.example/a2a")]

/-- The demo network: every request is answered with the NEST-style body
whose `content.text` is `"hi"`. -/
def demoNet : Request → NetResult :=
  fun _ => .ok (.dict [("content", .dict [("text", .str "hi")])])

/-- Demo environment with `alpha` registered. -/
def demoEnv : Env := ⟨demoDir, demoNet, fun _ => "local answer"⟩

/-- Demo environment in which the mentioned target is not registered and
the network always fails (no call should be issued anyway). -/
def demoEnvNF : Env := ⟨[("maria-agent", "http://maria.example/a2a")], fun _ => .fail,
  fun _ => "local answer"⟩

/-! ### Router claims -/

/-- C1: for every inbound message whose text contains no mention, a
strict-mode entry point signals the routing-required error whose payload
contains the original message text verbatim, and neither the Local
Responder nor any peer is ever invoked for that message. -/
theorem claim_C1_strict_no_mention (env : Env) (text conversation_id : String)
    (h : extract_agent_mentions text = []) :
    (a2a_endpoint .strict env text conversation_id).response =
      .httpError (strictDetail text) ∧
    (∃ p q, strictDetail text = p ++ text ++ q) ∧
    (a2a_endpoint .strict env text conversation_id).actions = [] ∧
    (a2a_endpoint .strict env text conversation_id).requests = [] := by
  have hparse := parse_no_mention text h
  refine ⟨?_,
    ⟨"❌ ERROR: /a2a endpoint requires @agent-id for routing.\n\nYour message: '",
     "'\n\nThis endpoint is ONLY for agent-to-agent communication.\nYou must include @agent-id to route to another agent.\n\nFor direct queries to THIS agent, use POST /query instead.",
     rfl⟩, ?_, ?_⟩ <;>
  · simp only [a2a_endpoint, hparse]

/-- Witness for C1: the message `"hello"` with no mention is rejected by
the strict entry point with the original text embedded, with no local
processing and no outbound request. -/
theorem claim_C1_strict_no_mention_witness :
    (a2a_endpoint .strict demoEnv "hello" "conv-1").response =
      .httpError (strictDetail "hello") ∧
    (∃ p q, strictDetail "hello" = p ++ "hello" ++ q) ∧
    (a2a_endpoint .strict demoEnv "hello" "conv-1").actions = [] ∧
    (a2a_endpoint .strict demoEnv "hello" "conv-1").requests = [] :=
  claim_C1_strict_no_mention demoEnv "hello" "conv-1" (by decide)

/-- C3 (counterexample): for `"@alpha hello"` routed to registered `alpha`
whose peer replies `"hi"`, the forwarded payload is exactly `"hello"`, but
the Router's reply text is `"[Forwarded to @alpha]\n\nhi"` — the
forwarding banner is prepended, so the reply does not equal `"hi"`. -/
theorem claim_C3_reply_not_verbatim_counterexample :
    (a2a_endpoint .strict demoEnv "@alpha hello" "conv-3").requests =
      [⟨"http://alpha.example/a2a", "hello", "conv-3", 30⟩] ∧
    (a2a_endpoint .strict demoEnv "@alpha hello" "conv-3").response ≠
      A2AResponse.envelope "hi" "conv-3" ∧
    (a2a_endpoint .strict demoEnv "@alpha hello" "conv-3").response =
      A2AResponse.envelope "[Forwarded to @alpha]\n\nhi" "conv-3" := by
  decide

/-- C3 (amended): for the message `"@alpha hello"` routed to a registered
`alpha` that replies `"hi"`, the payload forwarded to `alpha` is exactly
`"hello"` (mention stripped, whitespace collapsed) and the Router's reply
text is the peer reply `"hi"` prefixed with the `[Forwarded to @alpha]`
banner. -/
theorem claim_C3_forward_payload_and_wrapped_reply (env : Env)
    (conversation_id url : String)
    (hdir : lookupAgent env.dir "alpha" = some url)
    (hnet : env.net ⟨url, "hello", conversation_id, httpTimeout⟩ =
      .ok (.dict [("content", .dict [("text", .str "hi")])])) :
    (a2a_endpoint .strict env "@alpha hello" conversation_id).requests =
      [⟨url, "hello", conversation_id, httpTimeout⟩] ∧
    (a2a_endpoint .strict env "@alpha hello" conversation_id).response =
      .envelope (fwdWrap "alpha" "hi") conversation_id := by
  have hparse : parse_a2a_request "@alpha hello" = (some "alpha", "hello") := by decide
  have hsend : send_message_to_agent env.dir "alpha" "hello" conversation_id env.net =
      (.reply (.str "hi"), [⟨url, "hello", conversation_id, httpTimeout⟩]) := by
    simp only [send_message_to_agent, hdir, hnet]
    rfl
  constructor <;>
  · simp only [a2a_endpoint, hparse, hsend]
    try rfl

/-- Witness for C3 (amended): the concrete demo environment with `alpha`
registered and replying `"hi"`. -/
theorem claim_C3_forward_payload_and_wrapped_reply_witness :
    (a2a_endpoint .strict demoEnv "@alpha hello" "conv-31").requests =
      [⟨"http://alpha.example/a2a", "hello", "conv-31", httpTimeout⟩] ∧
    (a2a_endpoint .strict demoEnv "@alpha hello" "conv-31").response =
      .envelope (fwdWrap "alpha" "hi") "conv-31" :=
  claim_C3_forward_payload_and_wrapped_reply demoEnv "conv-31"
    "http://alpha.example/a2a" (by decide) rfl

/-- C4: for every message whose parsed mention sequence is non-empty, the
Router takes only the first mention as the routing target, every issued
request goes to that target's directory endpoint (no other mentioned
agent is contacted), and exactly that first mention token is stripped
from the forwarded payload. -/
theorem claim_C4_first_mention_routing (mode : Mode) (env : Env)
    (text conversation_id t : String) (ts : List String)
    (h : extract_agent_mentions text = t :: ts) :
    route_decision text =
      .forward t (pyStrip (String.mk (removeFirstSub ('@' :: t.toList) text.toList))) ∧
    (a2a_endpoint mode env text conversation_id).actions =
      [.forwardTo t (pyStrip (String.mk (removeFirstSub ('@' :: t.toList) text.toList)))] ∧
    ((a2a_endpoint mode env text conversation_id).requests.all
      (fun r => lookupAgent env.dir t == some r.agent_url)) = true := by
  obtain ⟨ha, hr, -, -⟩ := a2a_endpoint_forward mode env text conversation_id t ts h
  refine ⟨?_, ha, ?_⟩
  · unfold route_decision
    rw [parse_with_mention text t ts h]
  · rw [hr]
    exact send_requests_url env.dir t _ conversation_id env.net

/-- Witness for C4: `"@alpha @beta check this"` routes only to `alpha`,
with forwarded payload `"@beta check this"` (only the first mention is
stripped), and every issued request targets `alpha`'s endpoint. -/
theorem claim_C4_first_mention_routing_witness :
    route_decision "@alpha @beta check this" =
      .forward "alpha" "@beta check this" ∧
    (a2a_endpoint .strict demoEnv "@alpha @beta check this" "conv-4").actions =
      [.forwardTo "alpha" "@beta check this"] ∧
    ((a2a_endpoint .strict demoEnv "@alpha @beta check this" "conv-4").requests.all
      (fun r => lookupAgent demoEnv.dir "alpha" == some r.agent_url)) = true :=
  claim_C4_first_mention_routing .strict demoEnv "@alpha @beta check this" "conv-4"
    "alpha" ["beta"] (by decide)

/-- C5: for every message whose first mention names an identifier with no
directory entry, the Router never throws: it returns a normal success
envelope whose text contains the literal target identifier and the
rendered list of currently known identifiers, and it issues no outbound
request. -/
theorem claim_C5_unknown_target_folded (env : Env) (text conversation_id t : String)
    (ts : List String) (hm : extract_agent_mentions text = t :: ts)
    (hlk : lookupAgent env.dir t = none) :
    (a2a_endpoint .strict env text conversation_id).response =
      .envelope (fwdWrap t (agentNotFoundText env.dir t)) conversation_id ∧
    (∃ p q, fwdWrap t (agentNotFoundText env.dir t) = p ++ t ++ q) ∧
    (∃ p, fwdWrap t (agentNotFoundText env.dir t) =
      p ++ pyListRepr (knownIdentifiers env.dir)) ∧
    (a2a_endpoint .strict env text conversation_id).requests = [] := by
  obtain ⟨-, hr, hresp, -⟩ := a2a_endpoint_forward .strict env text conversation_id t ts hm
  have hsend := send_not_found env.dir t
    (pyStrip (String.mk (removeFirstSub ('@' :: t.toList) text.toList)))
    conversation_id env.net hlk
  refine ⟨?_, fwdWrap_contains_target t _, notFound_reply_has_known_list env.dir t, ?_⟩
  · rw [hresp, hsend]
    rfl
  · rw [hr, hsend]

/-- Witness for C5: routing `"@ghost hello"` in a directory that only
knows `maria-agent` yields the folded success envelope and no outbound
request. -/
theorem claim_C5_unknown_target_folded_witness :
    (a2a_endpoint .strict demoEnvNF "@ghost hello" "conv-5").response =
      .envelope (fwdWrap "ghost" (agentNotFoundText demoEnvNF.dir "ghost")) "conv-5" ∧
    (∃ p q, fwdWrap "ghost" (agentNotFoundText demoEnvNF.dir "ghost") = p ++ "ghost" ++ q) ∧
    (∃ p, fwdWrap "ghost" (agentNotFoundText demoEnvNF.dir "ghost") =
      p ++ pyListRepr (knownIdentifiers demoEnvNF.dir)) ∧
    (a2a_endpoint .strict demoEnvNF "@ghost hello" "conv-5").requests = [] :=
  claim_C5_unknown_target_folded demoEnvNF "@ghost hello" "conv-5" "ghost" []
    (by decide) (by decide)

/-- C8: for every processed message (one with a mention, or one handled in
permissive mode), the Routing Log receives exactly three entries in the
order Incoming, then the decision (Routing or Processing), then the
outcome (Success or Error), all carrying the caller's conversation id. -/
theorem claim_C8_log_order (mode : Mode) (env : Env) (text conversation_id : String)
    (h : extract_agent_mentions text ≠ [] ∨ mode = .permissive) :
    ∃ dec out tgt,
      (dec = Phase.routing ∨ dec = Phase.processing) ∧
      (out = Phase.success ∨ out = Phase.error) ∧
      (a2a_endpoint mode env text conversation_id).log =
        [⟨.incoming, conversation_id, none⟩, ⟨dec, conversation_id, tgt⟩,
         ⟨out, conversation_id, tgt⟩] := by
  cases hm : extract_agent_mentions text with
  | nil =>
    rcases h with h | h
    · exact absurd hm h
    · subst h
      have hparse := parse_no_mention text hm
      refine ⟨.processing, .success, none, Or.inr rfl, Or.inl rfl, ?_⟩
      simp only [a2a_endpoint, hparse]
  | cons t ts =>
    obtain ⟨-, -, -, hlog⟩ := a2a_endpoint_forward mode env text conversation_id t ts hm
    refine ⟨.routing,
      outcomePhase (send_message_to_agent env.dir t
        (pyStrip (String.mk (removeFirstSub ('@' :: t.toList) text.toList)))
        conversation_id env.net).1, some t, Or.inl rfl, ?_, hlog⟩
    cases hsr : (send_message_to_agent env.dir t
        (pyStrip (String.mk (removeFirstSub ('@' :: t.toList) text.toList)))
        conversation_id env.net).1 with
    | reply v => exact Or.inl rfl
    | notFound s => exact Or.inl rfl
    | dispatchFail s => exact Or.inr rfl

/-- Witness for C8: the locally-processed message `"hello"` in permissive
mode logs Incoming, Processing, Success under one conversation id. -/
theorem claim_C8_log_order_witness :
    ∃ dec out tgt,
      (dec = Phase.routing ∨ dec = Phase.processing) ∧
      (out = Phase.success ∨ out = Phase.error) ∧
      (a2a_endpoint .permissive demoEnv "hello" "conv-8").log =
        [⟨.incoming, "conv-8", none⟩, ⟨dec, "conv-8", tgt⟩, ⟨out, "conv-8", tgt⟩] :=
  claim_C8_log_order .permissive demoEnv "hello" "conv-8" (Or.inr rfl)

/-- C9 (counterexample): the message `"@alpha"` contains a mention, yet
the resulting Forward decision carries the empty stripped payload — the
claimed invariant that a Forward decision always carries a non-empty
strippedText fails. -/
theorem claim_C9_empty_payload_counterexample :
    route_decision "@alpha" = RoutingDecision.forward "alpha" "" := by decide

/-- C9 (amended): for every message containing a mention, the routing
decision is Forward with the stripped payload — possibly empty — and the
Router still forwards (the Local Responder is never invoked), even when
stripping the mention leaves an empty string. -/
theorem claim_C9_forward_even_when_empty (mode : Mode) (env : Env)
    (text conversation_id t : String) (ts : List String)
    (h : extract_agent_mentions text = t :: ts) :
    route_decision text =
      .forward t (pyStrip (String.mk (removeFirstSub ('@' :: t.toList) text.toList))) ∧
    (a2a_endpoint mode env text conversation_id).actions =
      [.forwardTo t (pyStrip (String.mk (removeFirstSub ('@' :: t.toList) text.toList)))] ∧
    (∀ s, Action.localRespond s ∉ (a2a_endpoint mode env text conversation_id).actions) := by
  obtain ⟨ha, -, -, -⟩ := a2a_endpoint_forward mode env text conversation_id t ts h
  refine ⟨?_, ha, ?_⟩
  · unfold route_decision
    rw [parse_with_mention text t ts h]
  · intro s hs
    rw [ha] at hs
    simp at hs

/-- Witness for C9 (amended): `"@alpha"` strips to the empty payload and
is still forwarded as an explicit empty-content message, with no local
handling. -/
theorem claim_C9_forward_even_when_empty_witness :
    route_decision "@alpha" = RoutingDecision.forward "alpha" "" ∧
    (a2a_endpoint .strict demoEnv "@alpha" "conv-9").actions =
      [.forwardTo "alpha" ""] ∧
    (∀ s, Action.localRespond s ∉ (a2a_endpoint .strict demoEnv "@alpha" "conv-9").actions) :=
  claim_C9_forward_even_when_empty .strict demoEnv "@alpha" "conv-9" "alpha" [] (by decide)

end A2A
